import Mathlib

/-!
Verification of the Synacor-Challenge virtual machine (src/src/vm.c).

The C program is shallowly embedded: the global storage components
(registers, memory, stack) become explicit values threaded through the
step function; a C `unsigned short` is a `Nat` below 65536; the C `int`
program counter is an `Int`.  Fallible C code is modelled with `CRes`:
`fail` stands for the defined fatal error path `vm_fail` (the process
exits with an error), while `ub` stands for C undefined behaviour
(an out-of-bounds array access or a division by zero), where the C
abstract machine guarantees nothing.
-/

/-- Result of a C operation: a value, a defined fatal error via vm_fail,
or undefined behaviour. -/
inductive CRes (α : Type) where
  | ok (val : α)
  | fail
  | ub
deriving DecidableEq

/-- Constant STACK_SIZE from vm.c line 24. -/
def STACK_SIZE : Nat := 32768

/-- Constant ARCH_MODULO from vm.c line 28. -/
def ARCH_MODULO : Nat := 32768

/-- Constant REGISTERS_SIZE from vm.c line 37. -/
def REGISTERS_SIZE : Nat := 8

/-- Constant STORAGE_REG_LOW from vm.c line 41. -/
def STORAGE_REG_LOW : Nat := 32768

/-- Constant STORAGE_REG_HIGH from vm.c line 42. -/
def STORAGE_REG_HIGH : Nat := 32775

/-- Constant STORAGE_INV_LOW from vm.c line 43. -/
def STORAGE_INV_LOW : Nat := 32776

/-- Constant MEMORY_SIZE from vm.c line 44.  Note the value is 32767,
so the C array memory.contents has exactly 32767 elements with valid
indices 0..32766. -/
def MEMORY_SIZE : Nat := 32767

/-- Constant VALUE_MAX_LITERAL from vm.c line 46. -/
def VALUE_MAX_LITERAL : Nat := 32767

/-- Constant VALUE_MAX_REGISTER from vm.c line 47. -/
def VALUE_MAX_REGISTER : Nat := 32775

/-- Function reg_read (vm.c lines 397-404): an address below
STORAGE_REG_LOW is returned unchanged; otherwise the C code reads
registers.contents[address - STORAGE_REG_LOW] with no upper bound
check, which for address - STORAGE_REG_LOW >= REGISTERS_SIZE is an
out-of-bounds read, hence undefined behaviour. -/
def reg_read (r : Nat → Nat) (address : Nat) : CRes Nat :=
  if address < STORAGE_REG_LOW then .ok address
  else if address - STORAGE_REG_LOW < REGISTERS_SIZE then
    .ok (r (address - STORAGE_REG_LOW))
  else .ub

/-- Function reg_write (vm.c lines 384-391): vm_fail when the address
is outside the register range, otherwise store into the slot. -/
def reg_write (r : Nat → Nat) (address value : Nat) : CRes (Nat → Nat) :=
  if address < STORAGE_REG_LOW ∨ STORAGE_REG_HIGH < address then .fail
  else .ok (fun i => if i = address - STORAGE_REG_LOW then value else r i)

/-- Function mem_read (vm.c lines 419-422): the C code indexes
memory.contents[address] with no check; the array has MEMORY_SIZE
elements, so any address ≥ MEMORY_SIZE is an out-of-bounds read. -/
def mem_read (m : Nat → Nat) (address : Nat) : CRes Nat :=
  if address < MEMORY_SIZE then .ok (m address) else .ub

/-- Function mem_write (vm.c lines 428-431): unchecked store into
memory.contents[address]; out of bounds for address ≥ MEMORY_SIZE. -/
def mem_write (m : Nat → Nat) (address value : Nat) : CRes (Nat → Nat) :=
  if address < MEMORY_SIZE then
    .ok (fun i => if i = address then value else m i)
  else .ub

/-- Function stack_pop (vm.c lines 446-453): vm_fail when the stack is
empty (stack_is_empty, position < 0), otherwise return the top element
and decrement position.  The stack is modelled as a list with its head
at the top. -/
def stack_pop : List Nat → CRes (Nat × List Nat)
  | [] => .fail
  | v :: rest => .ok (v, rest)

/-- Function stack_push (vm.c lines 459-466): vm_fail when the stack is
full (stack_is_full, position ≥ STACK_SIZE - 1, i.e. the stack already
holds STACK_SIZE elements), otherwise store at ++position. -/
def stack_push (st : List Nat) (element : Nat) : CRes (List Nat) :=
  if STACK_SIZE ≤ st.length then .fail else .ok (element :: st)

/-- Function val_get (vm.c lines 358-369): inputs up to
VALUE_MAX_LITERAL are literals, inputs up to VALUE_MAX_REGISTER are
read through reg_read, anything above is vm_fail. -/
def val_get (r : Nat → Nat) (input : Nat) : CRes Nat :=
  if input ≤ VALUE_MAX_LITERAL then .ok input
  else if input ≤ VALUE_MAX_REGISTER then reg_read r input
  else .fail

/-- VM state threaded through the step function: the C globals
registers, memory, stack, the local program counter of binary_exec,
plus the host I/O channels (pending input characters and emitted
output characters). -/
structure VMState where
  pc : Int
  registers : Nat → Nat
  memory : Nat → Nat
  stack : List Nat
  inputs : List Nat
  output : List Nat

/-- Outcome of one iteration of the binary_exec loop: continue with a
new state, exit(0) from the halt opcode, the program-counter bounds
fault of binary_exec, a vm_fail inside the operation, or undefined
behaviour. -/
inductive Outcome where
  | next (s : VMState)
  | halted (s : VMState)
  | pcFault (s : VMState)
  | fail
  | ub

/-- Sequencing helper: propagate fail and ub, continue on ok. -/
def withRes {α : Type} (x : CRes α) (f : α → Outcome) : Outcome :=
  match x with
  | .ok a => f a
  | .fail => .fail
  | .ub => .ub

/-- Bitwise complement restricted to 15 bits, the C expression
(~v) & 0x7fff of vm.c line 310, computed for a non-negative v:
the complement of v has low 15 bits equal to 32767 - v % 32768. -/
def c_not15 (v : Nat) : Nat := 32767 - v % 32768

/-- C remainder b % c of vm.c line 295: undefined behaviour when the
divisor is zero, otherwise the non-negative remainder. -/
def c_mod (b c : Nat) : CRes Nat := if c = 0 then .ub else .ok (b % c)

/-- Product of the two operand values of opcode 10 (vm.c line 290):
the unsigned short factors are promoted to int, so the multiplication
overflows INT_MAX = 2147483647 for large factors (registers can hold
up to 65535 on defined paths) — signed overflow, undefined behaviour;
otherwise the modulo-ARCH_MODULO reduction applies. -/
def c_mult (vb vc : Nat) : CRes Nat :=
  if vb * vc ≤ 2147483647 then .ok ((vb * vc) % ARCH_MODULO) else .ub

/-- Function operation_exec (vm.c lines 239-352), one switch dispatch
on the opcode with operand fields a, b, c.  Every case mirrors the C
statement for that opcode, including the use of reg_read (not val_get)
for the source of opcode 1, the int-overflow of the opcode 10 product,
the unchecked division of opcode 11, and the conversion of getchar()
EOF (-1) to the unsigned short 65535 in opcode 20. -/
def operation_exec (opcode a b c : Nat) (s : VMState) : Outcome :=
  if opcode = 0 then .halted s
  else if opcode = 1 then
    withRes (reg_read s.registers b) fun v =>
    withRes (reg_write s.registers a v) fun r =>
    .next { s with registers := r, pc := s.pc + 3 }
  else if opcode = 2 then
    withRes (val_get s.registers a) fun v =>
    withRes (stack_push s.stack v) fun st =>
    .next { s with stack := st, pc := s.pc + 2 }
  else if opcode = 3 then
    withRes (stack_pop s.stack) fun p =>
    withRes (reg_write s.registers a p.1) fun r =>
    .next { s with registers := r, stack := p.2, pc := s.pc + 2 }
  else if opcode = 4 then
    withRes (val_get s.registers b) fun vb =>
    withRes (val_get s.registers c) fun vc =>
    withRes (reg_write s.registers a (if vb = vc then 1 else 0)) fun r =>
    .next { s with registers := r, pc := s.pc + 4 }
  else if opcode = 5 then
    withRes (val_get s.registers b) fun vb =>
    withRes (val_get s.registers c) fun vc =>
    withRes (reg_write s.registers a (if vc < vb then 1 else 0)) fun r =>
    .next { s with registers := r, pc := s.pc + 4 }
  else if opcode = 6 then
    withRes (val_get s.registers a) fun v =>
    .next { s with pc := (v : Int) }
  else if opcode = 7 then
    withRes (val_get s.registers a) fun va =>
    if va ≠ 0 then
      withRes (val_get s.registers b) fun vb => .next { s with pc := (vb : Int) }
    else .next { s with pc := s.pc + 3 }
  else if opcode = 8 then
    withRes (val_get s.registers a) fun va =>
    if va = 0 then
      withRes (val_get s.registers b) fun vb => .next { s with pc := (vb : Int) }
    else .next { s with pc := s.pc + 3 }
  else if opcode = 9 then
    withRes (val_get s.registers b) fun vb =>
    withRes (val_get s.registers c) fun vc =>
    withRes (reg_write s.registers a ((vb + vc) % ARCH_MODULO)) fun r =>
    .next { s with registers := r, pc := s.pc + 4 }
  else if opcode = 10 then
    withRes (val_get s.registers b) fun vb =>
    withRes (val_get s.registers c) fun vc =>
    withRes (c_mult vb vc) fun m =>
    withRes (reg_write s.registers a m) fun r =>
    .next { s with registers := r, pc := s.pc + 4 }
  else if opcode = 11 then
    withRes (val_get s.registers b) fun vb =>
    withRes (val_get s.registers c) fun vc =>
    withRes (c_mod vb vc) fun m =>
    withRes (reg_write s.registers a m) fun r =>
    .next { s with registers := r, pc := s.pc + 4 }
  else if opcode = 12 then
    withRes (val_get s.registers b) fun vb =>
    withRes (val_get s.registers c) fun vc =>
    withRes (reg_write s.registers a (vb &&& vc)) fun r =>
    .next { s with registers := r, pc := s.pc + 4 }
  else if opcode = 13 then
    withRes (val_get s.registers b) fun vb =>
    withRes (val_get s.registers c) fun vc =>
    withRes (reg_write s.registers a (vb ||| vc)) fun r =>
    .next { s with registers := r, pc := s.pc + 4 }
  else if opcode = 14 then
    withRes (val_get s.registers b) fun vb =>
    withRes (reg_write s.registers a (c_not15 vb)) fun r =>
    .next { s with registers := r, pc := s.pc + 3 }
  else if opcode = 15 then
    withRes (val_get s.registers b) fun vb =>
    withRes (mem_read s.memory vb) fun mv =>
    withRes (reg_write s.registers a mv) fun r =>
    .next { s with registers := r, pc := s.pc + 3 }
  else if opcode = 16 then
    withRes (val_get s.registers a) fun va =>
    withRes (val_get s.registers b) fun vb =>
    withRes (mem_write s.memory va vb) fun m =>
    .next { s with memory := m, pc := s.pc + 3 }
  else if opcode = 17 then
    withRes (stack_push s.stack ((s.pc + 2) % 65536).toNat) fun st =>
    withRes (val_get s.registers a) fun v =>
    .next { s with stack := st, pc := (v : Int) }
  else if opcode = 18 then
    withRes (stack_pop s.stack) fun p =>
    .next { s with stack := p.2, pc := (p.1 : Int) }
  else if opcode = 19 then
    withRes (val_get s.registers a) fun v =>
    .next { s with output := s.output ++ [v % 256], pc := s.pc + 2 }
  else if opcode = 20 then
    match s.inputs with
    | [] =>
      withRes (reg_write s.registers a 65535) fun r =>
      .next { s with registers := r, pc := s.pc + 2 }
    | i :: rest =>
      withRes (reg_write s.registers a (i % 256)) fun r =>
      .next { s with registers := r, inputs := rest, pc := s.pc + 2 }
  else if opcode = 21 then
    .next { s with pc := s.pc + 1 }
  else .fail

/-- Fetch of memory.contents[i] with the int index i used by
binary_exec (vm.c lines 222-225): an index outside the array bounds
0..MEMORY_SIZE-1 is an out-of-bounds access, undefined behaviour. -/
def fetch (m : Nat → Nat) (i : Int) : CRes Nat :=
  if 0 ≤ i ∧ i < (MEMORY_SIZE : Int) then .ok (m i.toNat) else .ub

/-- Bounds check of binary_exec (vm.c lines 228-230): after an
operation that continues, vm_fail with "Program counter out of
bounds." when pc < 0 or pc > binary.length. -/
def pc_check (len : Nat) (o : Outcome) : Outcome :=
  match o with
  | .next s => if s.pc < 0 ∨ (len : Int) < s.pc then .pcFault s else .next s
  | o => o

/-- One iteration of the binary_exec loop (vm.c lines 219-231): fetch
the opcode and the three potential operand words unconditionally, run
operation_exec, then apply the program counter bounds check. -/
def vm_step (len : Nat) (s : VMState) : Outcome :=
  withRes (fetch s.memory s.pc) fun opcode =>
  withRes (fetch s.memory (s.pc + 1)) fun a =>
  withRes (fetch s.memory (s.pc + 2)) fun b =>
  withRes (fetch s.memory (s.pc + 3)) fun c =>
  pc_check len (operation_exec opcode a b c s)

/-- Byte j of the loaded image: bytes beyond the image are 0 because
mem_init (vm.c lines 410-413) zeroes the array before binary_load
copies the file bytes over it. -/
def byte_at (bytes : List Nat) (j : Nat) : Nat := bytes.getD j 0 % 256

/-- Memory contents after binary_load (vm.c lines 173-206): fread
copies the raw bytes over the zeroed array of unsigned shorts, so (on
the little-endian host) word i is byte 2i plus 256 times byte 2i+1. -/
def loadMem (bytes : List Nat) : Nat → Nat :=
  fun i => byte_at bytes (2 * i) + 256 * byte_at bytes (2 * i + 1)

/-- Function binary_load (vm.c lines 173-206): the byte image is copied
to memory at offset 0 and binary.length is set to size / 2 (integer
division, no odd-length check).  The memory array holds MEMORY_SIZE
unsigned shorts, so an image larger than 2 * MEMORY_SIZE bytes
overflows the buffer, undefined behaviour. -/
def binary_load (bytes : List Nat) : CRes ((Nat → Nat) × Nat) :=
  if bytes.length ≤ 2 * MEMORY_SIZE then .ok (loadMem bytes, bytes.length / 2)
  else .ub

/-- Start state of a run (main, vm.c lines 127-155): registers, memory
and stack zeroed by reg_init, mem_init and stack_init, the image placed
by binary_load, pc starting at 0 in binary_exec. -/
def init_state (bytes : List Nat) (inputs : List Nat) : VMState :=
  { pc := 0
    registers := fun _ => 0
    memory := loadMem bytes
    stack := []
    inputs := inputs
    output := [] }

/-- Invariant carried by the C types: every word held in the register
array, the memory array and the stack array is an unsigned short,
below 65536. -/
def Words16 (s : VMState) : Prop :=
  (∀ i, s.registers i < 65536) ∧ (∀ i, s.memory i < 65536) ∧
  (∀ v ∈ s.stack, v < 65536)

/-- Iterated vm_step as a relation: Steps len s n t means n iterations
of the binary_exec loop starting from s all continue and reach t. -/
inductive Steps (len : Nat) : VMState → Nat → VMState → Prop where
  | refl (s : VMState) : Steps len s 0 s
  | tail {s s' s'' : VMState} {n : Nat} :
      Steps len s n s' → vm_step len s' = .next s'' → Steps len s (n + 1) s''

/-- Inversion of withRes: a continuing outcome comes from an ok
result. -/
theorem withRes_next {α : Type} {x : CRes α} {g : α → Outcome} {s' : VMState}
    (h : withRes x g = .next s') : ∃ a, x = .ok a ∧ g a = .next s' := by
  cases x with
  | ok a => exact ⟨a, rfl, h⟩
  | fail => simp [withRes] at h
  | ub => simp [withRes] at h

/-- Inversion of the program counter bounds check: a continuing outcome
passed the check. -/
theorem pc_check_next {len : Nat} {o : Outcome} {s' : VMState}
    (h : pc_check len o = .next s') :
    o = .next s' ∧ 0 ≤ s'.pc ∧ s'.pc ≤ (len : Int) := by
  cases o with
  | next s =>
      simp only [pc_check] at h
      by_cases hc : s.pc < 0 ∨ (len : Int) < s.pc
      · rw [if_pos hc] at h
        cases h
      · rw [if_neg hc] at h
        cases h
        refine ⟨rfl, ?_, ?_⟩ <;> omega
  | halted s => simp [pc_check] at h
  | pcFault s => simp [pc_check] at h
  | fail => simp [pc_check] at h
  | ub => simp [pc_check] at h

/-- Inversion of fetch: an ok fetch means the index is in bounds and
the value is the memory word there. -/
theorem fetch_ok {m : Nat → Nat} {i : Int} {v : Nat}
    (h : fetch m i = .ok v) :
    0 ≤ i ∧ i < (MEMORY_SIZE : Int) ∧ v = m i.toNat := by
  unfold fetch at h
  split at h
  · cases h
    rename_i hc
    exact ⟨hc.1, hc.2, rfl⟩
  · cases h

/-- C1: operand resolution (val_get) classifies every raw 16-bit field:
fields 0..32767 are returned unchanged, fields 32768..32775 resolve to
the current value of register slot field - 32768, and fields
32776..65535 abort the run via vm_fail. -/
theorem C1_val_get_classification (r : Nat → Nat) (f : Nat) :
    (f ≤ 32767 → val_get r f = .ok f) ∧
    (32768 ≤ f → f ≤ 32775 → val_get r f = .ok (r (f - 32768))) ∧
    (32776 ≤ f → f ≤ 65535 → val_get r f = .fail) := by
  refine ⟨fun h1 => ?_, fun h2 h3 => ?_, fun h4 h5 => ?_⟩
  · simp only [val_get, VALUE_MAX_LITERAL]
    rw [if_pos h1]
  · simp only [val_get, reg_read, VALUE_MAX_LITERAL, VALUE_MAX_REGISTER,
      STORAGE_REG_LOW, REGISTERS_SIZE]
    rw [if_neg (by omega), if_pos (by omega), if_neg (by omega), if_pos (by omega)]
  · simp only [val_get, VALUE_MAX_LITERAL, VALUE_MAX_REGISTER]
    rw [if_neg (by omega), if_neg (by omega)]

/-- Example register bank used by concrete witnesses. -/
def regs_w : Nat → Nat := fun i => 100 + i

/-- Witness for C1 at the concrete fields 5, 32770 and 40000. -/
theorem C1_val_get_classification_witness :
    val_get regs_w 5 = .ok 5 ∧ val_get regs_w 32770 = .ok (regs_w 2) ∧
    val_get regs_w 40000 = .fail :=
  ⟨(C1_val_get_classification regs_w 5).1 (by decide),
   (C1_val_get_classification regs_w 32770).2.1 (by decide) (by decide),
   (C1_val_get_classification regs_w 40000).2.2 (by decide) (by decide)⟩

/-- C4, behaviour of the code at the failing input: the memory array
has MEMORY_SIZE = 32767 elements, so address 32767 — a valid Word the
spec declares to be always-usable storage — is an out-of-bounds access
for both mem_read and mem_write (undefined behaviour, no defined
round-trip), while the last in-bounds address 32766 round-trips. -/
theorem C4_mem_oob_at_32767 :
    mem_read (fun _ => 0) 32767 = .ub ∧
    mem_write (fun _ => 0) 32767 1 = .ub ∧
    mem_write (fun _ => 0) 32766 5 = .ok (fun i => if i = 32766 then 5 else 0) ∧
    mem_read (fun i => if i = 32766 then 5 else 0) 32766 = .ok 5 :=
  ⟨rfl, rfl, rfl, rfl⟩

/-- C5: the call stack is a strict LIFO of capacity STACK_SIZE = 32768:
a push on a non-full stack followed by a pop returns the pushed value
and restores the previous stack, a pop on the empty stack is a fatal
fault, and a push on a full stack is a fatal fault. -/
theorem C5_stack_lifo (st : List Nat) (v : Nat) (hlen : st.length < STACK_SIZE) :
    (∃ st', stack_push st v = .ok st' ∧ stack_pop st' = .ok (v, st)) ∧
    stack_pop [] = .fail ∧
    (∀ stf : List Nat, stf.length = STACK_SIZE → ∀ w, stack_push stf w = .fail) := by
  refine ⟨⟨v :: st, ?_, rfl⟩, rfl, fun stf hf w => ?_⟩
  · unfold stack_push
    rw [if_neg (by omega)]
  · unfold stack_push
    rw [if_pos (by omega)]

/-- Witness for C5 with the one-element stack holding 3 and value 7. -/
theorem C5_stack_lifo_witness :
    (∃ st', stack_push [3] 7 = .ok st' ∧ stack_pop st' = .ok (7, [3])) ∧
    stack_pop [] = .fail ∧
    (∀ stf : List Nat, stf.length = STACK_SIZE → ∀ w, stack_push stf w = .fail) :=
  C5_stack_lifo [3] 7 (by decide)

/-- Example state whose next instruction is set r0 from the invalid
field 32776 (memory words 1, 32768, 32776, 0). -/
def st_c2 : VMState :=
  { pc := 0
    registers := fun _ => 0
    memory := fun i =>
      if i = 0 then 1 else if i = 1 then 32768 else if i = 2 then 32776 else 0
    stack := []
    inputs := []
    output := [] }

/-- C2, behaviour of the code at the failing input: executing set with
the source field 32776 never reaches the vm_fail of val_get, because
the set case calls reg_read instead of val_get; reg_read then reads
registers.contents[8], one past the end of the 8-element array —
undefined behaviour instead of the immediate fault the claim states.
The last conjunct shows the resolver itself would indeed fault. -/
theorem C2_set_invalid_source_ub :
    vm_step 2 st_c2 = .ub ∧
    operation_exec 1 32768 32776 0 st_c2 = .ub ∧
    reg_read st_c2.registers 32776 = .ub ∧
    val_get st_c2.registers 32776 = .fail :=
  ⟨rfl, rfl, rfl, rfl⟩

/-- Example state whose next instruction is mod r0, 7, 0 (memory words
11, 32768, 7, 0). -/
def st_c6 : VMState :=
  { pc := 0
    registers := fun _ => 0
    memory := fun i =>
      if i = 0 then 11 else if i = 1 then 32768 else if i = 2 then 7 else 0
    stack := []
    inputs := []
    output := [] }

/-- C6 counterexample: both source operands of this mod instruction
resolve successfully (literals 7 and 0), yet no value is stored and pc
does not advance: the C remainder by zero is undefined behaviour, so
the opcode is not total over all resolvable operand pairs. -/
theorem C6_mod_by_zero_ub :
    val_get st_c6.registers 7 = .ok 7 ∧
    val_get st_c6.registers 0 = .ok 0 ∧
    operation_exec 11 32768 7 0 st_c6 = .ub ∧
    vm_step 4 st_c6 = .ub :=
  ⟨rfl, rfl, rfl, rfl⟩

/-- C6 amended: for every execution of the mod opcode whose two source
operands resolve successfully and whose divisor value is nonzero (and
whose destination field is a register address), register a receives
val(b) mod val(c) and pc advances by 4. -/
theorem C6_mod_amended (s : VMState) (a b c vb vc : Nat)
    (hb : val_get s.registers b = .ok vb)
    (hc : val_get s.registers c = .ok vc)
    (hvc : vc ≠ 0)
    (halo : STORAGE_REG_LOW ≤ a) (hahi : a ≤ STORAGE_REG_HIGH) :
    ∃ r, reg_write s.registers a (vb % vc) = .ok r ∧
      r (a - STORAGE_REG_LOW) = vb % vc ∧
      operation_exec 11 a b c s = .next { s with registers := r, pc := s.pc + 4 } := by
  have hw : reg_write s.registers a (vb % vc) =
      .ok (fun i => if i = a - STORAGE_REG_LOW then vb % vc else s.registers i) := by
    unfold reg_write
    rw [if_neg (by omega)]
  refine ⟨_, hw, by simp, ?_⟩
  have hstep : operation_exec 11 a b c s =
      withRes (val_get s.registers b) fun vb' =>
      withRes (val_get s.registers c) fun vc' =>
      withRes (c_mod vb' vc') fun m =>
      withRes (reg_write s.registers a m) fun r =>
      .next { s with registers := r, pc := s.pc + 4 } := rfl
  rw [hstep, hb, hc]
  simp only [withRes]
  unfold c_mod
  rw [if_neg hvc]
  simp only [withRes]
  rw [hw]

/-- Witness for C6 amended: mod r0, 7, 9 stores 7 in register 0. -/
theorem C6_mod_amended_witness :
    ∃ r, reg_write st_c6.registers 32768 (7 % 9) = .ok r ∧
      r (32768 - STORAGE_REG_LOW) = 7 % 9 ∧
      operation_exec 11 32768 7 9 st_c6 =
        .next { st_c6 with registers := r, pc := st_c6.pc + 4 } :=
  C6_mod_amended st_c6 32768 7 9 7 9 rfl rfl (by decide) (by decide) (by decide)

/-- C9 counterexample: binary_load does not reject odd-length input.
The one-byte image [65] loads successfully (no loader error, execution
would start), with recorded length 0 and the byte placed in the low
half of word 0. -/
theorem C9_odd_length_no_error :
    binary_load [65] = .ok (loadMem [65], 0) ∧ loadMem [65] 0 = 65 :=
  ⟨rfl, rfl⟩

/-- C9 amended: loading never reports an odd-length error.  For every
byte sequence that fits the memory buffer, loading succeeds with
recorded length equal to the byte count divided by two (rounded down);
complete byte pairs become little-endian words from address 0, and an
odd trailing byte still lands in the low half of the word just past
the recorded length, with high byte zero. -/
theorem C9_binary_load_amended (bytes : List Nat)
    (hsz : bytes.length ≤ 2 * MEMORY_SIZE) (hb : ∀ x ∈ bytes, x < 256) :
    binary_load bytes = .ok (loadMem bytes, bytes.length / 2) ∧
    (∀ i : Nat, ∀ h1 : 2 * i + 1 < bytes.length,
      loadMem bytes i =
        bytes.get ⟨2 * i, by omega⟩ + 256 * bytes.get ⟨2 * i + 1, h1⟩) ∧
    (∀ hodd : bytes.length % 2 = 1,
      loadMem bytes (bytes.length / 2) =
        bytes.get ⟨bytes.length - 1, by omega⟩) := by
  refine ⟨?_, fun i h1 => ?_, fun hodd => ?_⟩
  · unfold binary_load
    rw [if_pos hsz]
  · have h0 : 2 * i < bytes.length := by omega
    simp only [loadMem, byte_at, List.getD_eq_getElem?_getD,
      List.getElem?_eq_getElem h0, List.getElem?_eq_getElem h1,
      Option.getD_some, List.get_eq_getElem]
    rw [Nat.mod_eq_of_lt (hb _ (List.getElem_mem h0)),
      Nat.mod_eq_of_lt (hb _ (List.getElem_mem h1))]
  · have hlow : 2 * (bytes.length / 2) = bytes.length - 1 := by omega
    have hhigh : 2 * (bytes.length / 2) + 1 = bytes.length := by omega
    have hlt : bytes.length - 1 < bytes.length := by omega
    unfold loadMem byte_at
    rw [hhigh, hlow]
    simp only [List.getD_eq_getElem?_getD, List.getElem?_eq_getElem hlt,
      List.getElem?_eq_none (Nat.le_refl bytes.length), Option.getD_some,
      Option.getD_none, Nat.zero_mod, Nat.mul_zero, Nat.add_zero,
      List.get_eq_getElem]
    rw [Nat.mod_eq_of_lt (hb _ (List.getElem_mem hlt))]

/-- Bound on the register file after a successful reg_write. -/
theorem reg_write_bound {r : Nat → Nat} {a v : Nat} {r' : Nat → Nat}
    (hr : ∀ i, r i < 65536) (hv : v < 65536)
    (h : reg_write r a v = .ok r') : ∀ i, r' i < 65536 := by
  unfold reg_write at h
  by_cases hc : a < STORAGE_REG_LOW ∨ STORAGE_REG_HIGH < a
  · rw [if_pos hc] at h
    cases h
  · rw [if_neg hc] at h
    cases h
    intro i
    by_cases hi : i = a - STORAGE_REG_LOW
    · simpa [hi] using hv
    · simpa [hi] using hr i

/-- Bound on a successful reg_read result. -/
theorem reg_read_bound {r : Nat → Nat} {x v : Nat}
    (hr : ∀ i, r i < 65536) (hx : x < 65536)
    (h : reg_read r x = .ok v) : v < 65536 := by
  unfold reg_read at h
  by_cases h1 : x < STORAGE_REG_LOW
  · rw [if_pos h1] at h
    cases h
    exact hx
  · rw [if_neg h1] at h
    by_cases h2 : x - STORAGE_REG_LOW < REGISTERS_SIZE
    · rw [if_pos h2] at h
      cases h
      exact hr _
    · rw [if_neg h2] at h
      cases h

/-- Bound on a successful val_get result: a literal is at most 32767
and a register holds a 16-bit word. -/
theorem val_get_bound {r : Nat → Nat} {x v : Nat}
    (hr : ∀ i, r i < 65536) (h : val_get r x = .ok v) : v < 65536 := by
  unfold val_get at h
  by_cases h1 : x ≤ VALUE_MAX_LITERAL
  · rw [if_pos h1] at h
    cases h
    simp only [VALUE_MAX_LITERAL] at h1
    omega
  · rw [if_neg h1] at h
    by_cases h2 : x ≤ VALUE_MAX_REGISTER
    · rw [if_pos h2] at h
      refine reg_read_bound hr ?_ h
      simp only [VALUE_MAX_REGISTER] at h2
      omega
    · rw [if_neg h2] at h
      cases h

/-- Bound on the stack after a successful push. -/
theorem stack_push_bound {st : List Nat} {v : Nat} {st' : List Nat}
    (hst : ∀ w ∈ st, w < 65536) (hv : v < 65536)
    (h : stack_push st v = .ok st') : ∀ w ∈ st', w < 65536 := by
  unfold stack_push at h
  by_cases hc : STACK_SIZE ≤ st.length
  · rw [if_pos hc] at h
    cases h
  · rw [if_neg hc] at h
    cases h
    intro w hw
    rcases List.mem_cons.mp hw with hw | hw
    · exact hw ▸ hv
    · exact hst w hw

/-- Bound on the value and the stack after a successful pop. -/
theorem stack_pop_bound {st : List Nat} {p : Nat × List Nat}
    (hst : ∀ w ∈ st, w < 65536) (h : stack_pop st = .ok p) :
    p.1 < 65536 ∧ ∀ w ∈ p.2, w < 65536 := by
  cases st with
  | nil => cases h
  | cons v rest =>
      cases h
      exact ⟨hst v (List.mem_cons_self v rest),
        fun w hw => hst w (List.mem_cons_of_mem v hw)⟩

/-- Bound on a successful mem_read result. -/
theorem mem_read_bound {m : Nat → Nat} {x v : Nat}
    (hm : ∀ i, m i < 65536) (h : mem_read m x = .ok v) : v < 65536 := by
  unfold mem_read at h
  by_cases hc : x < MEMORY_SIZE
  · rw [if_pos hc] at h
    cases h
    exact hm x
  · rw [if_neg hc] at h
    cases h

/-- Bound on memory after a successful mem_write. -/
theorem mem_write_bound {m : Nat → Nat} {x v : Nat} {m' : Nat → Nat}
    (hm : ∀ i, m i < 65536) (hv : v < 65536)
    (h : mem_write m x v = .ok m') : ∀ i, m' i < 65536 := by
  unfold mem_write at h
  by_cases hc : x < MEMORY_SIZE
  · rw [if_pos hc] at h
    cases h
    intro i
    by_cases hi : i = x
    · simpa [hi] using hv
    · simpa [hi] using hm i
  · rw [if_neg hc] at h
    cases h

/-- Bound on a successful c_mod result. -/
theorem c_mod_bound {vb vc m : Nat} (hb : vb < 65536)
    (h : c_mod vb vc = .ok m) : m < 65536 := by
  unfold c_mod at h
  by_cases hc : vc = 0
  · rw [if_pos hc] at h
    cases h
  · rw [if_neg hc] at h
    cases h
    exact lt_of_le_of_lt (Nat.mod_le vb vc) hb

/-- Bound on a successful c_mult result. -/
theorem c_mult_bound {vb vc m : Nat} (h : c_mult vb vc = .ok m) : m < 65536 := by
  unfold c_mult at h
  by_cases hc : vb * vc ≤ 2147483647
  · rw [if_pos hc] at h
    cases h
    simp only [ARCH_MODULO]
    omega
  · rw [if_neg hc] at h
    cases h

/-- Preservation of the 16-bit word bound by one operation_exec call,
for every opcode, every operand triple whose b field is a 16-bit word,
and every host-input outcome including end of input. -/
theorem operation_exec_words16 {op a b c : Nat} {s s' : VMState}
    (h16 : Words16 s) (hbf : b < 65536)
    (h : operation_exec op a b c s = .next s') : Words16 s' := by
  obtain ⟨hreg, hmem, hstk⟩ := h16
  by_cases hlt : op < 22
  swap
  · unfold operation_exec at h
    iterate 22 rw [if_neg (by omega)] at h
    exact Outcome.noConfusion h
  interval_cases op
  · exact Outcome.noConfusion h
  · obtain ⟨v, hv, h⟩ := withRes_next h
    obtain ⟨r, hrw, h⟩ := withRes_next h
    cases h
    exact ⟨reg_write_bound hreg (reg_read_bound hreg hbf hv) hrw, hmem, hstk⟩
  · obtain ⟨v, hv, h⟩ := withRes_next h
    obtain ⟨st, hpush, h⟩ := withRes_next h
    cases h
    exact ⟨hreg, hmem, stack_push_bound hstk (val_get_bound hreg hv) hpush⟩
  · obtain ⟨p, hp, h⟩ := withRes_next h
    obtain ⟨r, hrw, h⟩ := withRes_next h
    cases h
    have hpb := stack_pop_bound hstk hp
    exact ⟨reg_write_bound hreg hpb.1 hrw, hmem, hpb.2⟩
  · obtain ⟨vb, hvb, h⟩ := withRes_next h
    obtain ⟨vc, hvc, h⟩ := withRes_next h
    obtain ⟨r, hrw, h⟩ := withRes_next h
    cases h
    refine ⟨reg_write_bound hreg ?_ hrw, hmem, hstk⟩
    split <;> omega
  · obtain ⟨vb, hvb, h⟩ := withRes_next h
    obtain ⟨vc, hvc, h⟩ := withRes_next h
    obtain ⟨r, hrw, h⟩ := withRes_next h
    cases h
    refine ⟨reg_write_bound hreg ?_ hrw, hmem, hstk⟩
    split <;> omega
  · obtain ⟨v, hv, h⟩ := withRes_next h
    cases h
    exact ⟨hreg, hmem, hstk⟩
  · obtain ⟨va, hva, h⟩ := withRes_next h
    by_cases hz : va ≠ 0
    · rw [if_pos hz] at h
      obtain ⟨vb, hvb, h⟩ := withRes_next h
      cases h
      exact ⟨hreg, hmem, hstk⟩
    · rw [if_neg hz] at h
      cases h
      exact ⟨hreg, hmem, hstk⟩
  · obtain ⟨va, hva, h⟩ := withRes_next h
    by_cases hz : va = 0
    · rw [if_pos hz] at h
      obtain ⟨vb, hvb, h⟩ := withRes_next h
      cases h
      exact ⟨hreg, hmem, hstk⟩
    · rw [if_neg hz] at h
      cases h
      exact ⟨hreg, hmem, hstk⟩
  · obtain ⟨vb, hvb, h⟩ := withRes_next h
    obtain ⟨vc, hvc, h⟩ := withRes_next h
    obtain ⟨r, hrw, h⟩ := withRes_next h
    cases h
    refine ⟨reg_write_bound hreg ?_ hrw, hmem, hstk⟩
    simp only [ARCH_MODULO]
    omega
  · obtain ⟨vb, hvb, h⟩ := withRes_next h
    obtain ⟨vc, hvc, h⟩ := withRes_next h
    obtain ⟨m, hm, h⟩ := withRes_next h
    obtain ⟨r, hrw, h⟩ := withRes_next h
    cases h
    exact ⟨reg_write_bound hreg (c_mult_bound hm) hrw, hmem, hstk⟩
  · obtain ⟨vb, hvb, h⟩ := withRes_next h
    obtain ⟨vc, hvc, h⟩ := withRes_next h
    obtain ⟨m, hm, h⟩ := withRes_next h
    obtain ⟨r, hrw, h⟩ := withRes_next h
    cases h
    exact ⟨reg_write_bound hreg (c_mod_bound (val_get_bound hreg hvb) hm) hrw,
      hmem, hstk⟩
  · obtain ⟨vb, hvb, h⟩ := withRes_next h
    obtain ⟨vc, hvc, h⟩ := withRes_next h
    obtain ⟨r, hrw, h⟩ := withRes_next h
    cases h
    refine ⟨reg_write_bound hreg ?_ hrw, hmem, hstk⟩
    exact lt_of_le_of_lt Nat.and_le_left (val_get_bound hreg hvb)
  · obtain ⟨vb, hvb, h⟩ := withRes_next h
    obtain ⟨vc, hvc, h⟩ := withRes_next h
    obtain ⟨r, hrw, h⟩ := withRes_next h
    cases h
    refine ⟨reg_write_bound hreg ?_ hrw, hmem, hstk⟩
    have e : (65536 : Nat) = 2 ^ 16 := by norm_num
    rw [e]
    exact Nat.or_lt_two_pow (e ▸ val_get_bound hreg hvb)
      (e ▸ val_get_bound hreg hvc)
  · obtain ⟨vb, hvb, h⟩ := withRes_next h
    obtain ⟨r, hrw, h⟩ := withRes_next h
    cases h
    refine ⟨reg_write_bound hreg ?_ hrw, hmem, hstk⟩
    unfold c_not15
    omega
  · obtain ⟨vb, hvb, h⟩ := withRes_next h
    obtain ⟨mv, hmv, h⟩ := withRes_next h
    obtain ⟨r, hrw, h⟩ := withRes_next h
    cases h
    exact ⟨reg_write_bound hreg (mem_read_bound hmem hmv) hrw, hmem, hstk⟩
  · obtain ⟨va, hva, h⟩ := withRes_next h
    obtain ⟨vb, hvb, h⟩ := withRes_next h
    obtain ⟨m, hmw, h⟩ := withRes_next h
    cases h
    exact ⟨hreg, mem_write_bound hmem (val_get_bound hreg hvb) hmw, hstk⟩
  · obtain ⟨st, hpush, h⟩ := withRes_next h
    obtain ⟨v, hv, h⟩ := withRes_next h
    cases h
    refine ⟨hreg, hmem, stack_push_bound hstk ?_ hpush⟩
    omega
  · obtain ⟨p, hp, h⟩ := withRes_next h
    cases h
    exact ⟨hreg, hmem, (stack_pop_bound hstk hp).2⟩
  · obtain ⟨v, hv, h⟩ := withRes_next h
    cases h
    exact ⟨hreg, hmem, hstk⟩
  · replace h :
        (match s.inputs with
          | [] =>
            withRes (reg_write s.registers a 65535) fun r =>
            Outcome.next { s with registers := r, pc := s.pc + 2 }
          | i :: rest =>
            withRes (reg_write s.registers a (i % 256)) fun r =>
            Outcome.next { s with registers := r, inputs := rest, pc := s.pc + 2 }) =
        .next s' := h
    rcases hI : s.inputs with _ | ⟨i, rest⟩
    · simp only [hI] at h
      obtain ⟨r, hrw, h⟩ := withRes_next h
      cases h
      exact ⟨reg_write_bound hreg (by omega) hrw, hmem, hstk⟩
    · simp only [hI] at h
      obtain ⟨r, hrw, h⟩ := withRes_next h
      cases h
      exact ⟨reg_write_bound hreg (by omega) hrw, hmem, hstk⟩
  · cases h
    exact ⟨hreg, hmem, hstk⟩

/-- C3 counterexample: the start state reached by loading the two-byte
image [0, 128] stores the Word 32768 = 0 + 256 * 128 at address 0 of
the Address Space, outside [0, 32767]: loading any program that names
a register already breaks the claimed invariant. -/
theorem C3_loaded_word_out_of_range :
    binary_load [0, 128] = .ok (loadMem [0, 128], 1) ∧
    (init_state [0, 128] []).memory 0 = 32768 ∧
    ¬ (init_state [0, 128] []).memory 0 ≤ 32767 :=
  ⟨rfl, rfl, by decide⟩

/-- C3 amended: the invariant that every stored Word lies in [0, 65535]
— not [0, 32767] — holds of every component and is preserved by every
opcode for every host-input result: the loader may place any 16-bit
word in the Address Space, rmem can copy such a word into a register,
and in at end of input stores 65535, but no operation ever produces a
value outside 16 bits. -/
theorem C3_words16_preserved (len : Nat) (s s' : VMState)
    (h16 : Words16 s) (h : vm_step len s = .next s') : Words16 s' := by
  unfold vm_step at h
  obtain ⟨op, hop, h⟩ := withRes_next h
  obtain ⟨a, ha, h⟩ := withRes_next h
  obtain ⟨b, hb, h⟩ := withRes_next h
  obtain ⟨c, hc, h⟩ := withRes_next h
  have hb16 : b < 65536 := by
    obtain ⟨_, _, hbv⟩ := fetch_ok hb
    exact hbv ▸ h16.2.1 _
  exact operation_exec_words16 h16 hb16 (pc_check_next h).1

/-- Example state running the single noop instruction. -/
def exW : VMState :=
  { pc := 0
    registers := fun _ => 0
    memory := fun i => if i = 0 then 21 else 0
    stack := []
    inputs := []
    output := [] }

/-- State after the noop step of exW. -/
def exW' : VMState := { exW with pc := 1 }

/-- Word bound for the example state exW. -/
theorem exW_words16 : Words16 exW :=
  ⟨fun _ => by norm_num [exW],
   fun i => by by_cases hi : i = 0 <;> simp [exW, hi],
   fun v hv => absurd hv (List.not_mem_nil v)⟩

/-- Witness for C3 amended: the noop step from exW preserves the
16-bit bound. -/
theorem C3_words16_preserved_witness : Words16 exW' :=
  C3_words16_preserved 2 exW exW' exW_words16 rfl

/-- C8: a state the engine continues from always has its program
counter inside [0, len] (the check runs after every step), and a jmp
whose resolved target exceeds the loaded length ends the step in the
ProgramCounterOutOfBounds fault, so no further instruction executes. -/
theorem C8_pc_bounds (len : Nat) (s : VMState) :
    (∀ s', vm_step len s = .next s' → 0 ≤ s'.pc ∧ s'.pc ≤ (len : Int)) ∧
    (∀ afld bfld cfld t : Nat,
      fetch s.memory s.pc = .ok 6 →
      fetch s.memory (s.pc + 1) = .ok afld →
      fetch s.memory (s.pc + 2) = .ok bfld →
      fetch s.memory (s.pc + 3) = .ok cfld →
      val_get s.registers afld = .ok t →
      (len : Int) < (t : Int) →
      ∃ s', vm_step len s = .pcFault s' ∧ s'.pc = (t : Int)) := by
  constructor
  · intro s' h
    unfold vm_step at h
    obtain ⟨op, hop, h⟩ := withRes_next h
    obtain ⟨a, ha, h⟩ := withRes_next h
    obtain ⟨b, hb, h⟩ := withRes_next h
    obtain ⟨c, hc, h⟩ := withRes_next h
    exact (pc_check_next h).2
  · intro afld bfld cfld t h0 h1 h2 h3 hval hlt
    unfold vm_step
    rw [h0, h1, h2, h3]
    simp only [withRes]
    have hstep : operation_exec 6 afld bfld cfld s =
        withRes (val_get s.registers afld) fun v =>
        .next { s with pc := (v : Int) } := rfl
    rw [hstep, hval]
    simp only [withRes, pc_check]
    rw [if_pos (Or.inr hlt)]
    exact ⟨_, rfl, rfl⟩

/-- Example state whose next instruction is jmp 9 (memory words 6, 9),
with loaded length 3. -/
def st_c8 : VMState :=
  { pc := 0
    registers := fun _ => 0
    memory := fun i => if i = 0 then 6 else if i = 1 then 9 else 0
    stack := []
    inputs := []
    output := [] }

/-- Witness for C8: the noop step from exW lands inside the bounds,
and jmp 9 under length 3 faults with pc 9. -/
theorem C8_pc_bounds_witness :
    (0 ≤ exW'.pc ∧ exW'.pc ≤ (2 : Int)) ∧
    (∃ s', vm_step 3 st_c8 = .pcFault s' ∧ s'.pc = ((9 : Nat) : Int)) :=
  ⟨(C8_pc_bounds 2 exW).1 exW' rfl,
   (C8_pc_bounds 3 st_c8).2 9 0 0 9 rfl rfl rfl rfl rfl (by decide)⟩

/-- C7: a call instruction at pc pushes pc + 2 and sets pc to the
resolved target; when the instruction at the target is ret (and both
instructions fetch in bounds and pass the pc check), the following
step pops that value back, so control returns to pc + 2, the
instruction after the call, with the stack, registers, memory and
output restored to their state before the call. -/
theorem C7_call_ret (len : Nat) (s : VMState) (afld bfld cfld t : Nat)
    (h0 : fetch s.memory s.pc = .ok 17)
    (h1 : fetch s.memory (s.pc + 1) = .ok afld)
    (h2 : fetch s.memory (s.pc + 2) = .ok bfld)
    (h3 : fetch s.memory (s.pc + 3) = .ok cfld)
    (hval : val_get s.registers afld = .ok t)
    (hstk : s.stack.length < STACK_SIZE)
    (htlen : t ≤ len)
    (hpclen : s.pc + 2 ≤ (len : Int))
    (hret : s.memory t = 18)
    (ht3 : t + 3 < MEMORY_SIZE) :
    ∃ s₁, vm_step len s = .next s₁ ∧
      s₁.pc = (t : Int) ∧ s₁.stack = (s.pc + 2).toNat :: s.stack ∧
      ∃ s₂, vm_step len s₁ = .next s₂ ∧ s₂.pc = s.pc + 2 ∧
        s₂.stack = s.stack ∧ s₂.registers = s.registers ∧
        s₂.memory = s.memory ∧ s₂.output = s.output := by
  obtain ⟨hpc0, hpclt, _⟩ := fetch_ok h0
  simp only [MEMORY_SIZE] at hpclt
  simp only [MEMORY_SIZE] at ht3
  have hmod : (s.pc + 2) % 65536 = s.pc + 2 :=
    Int.emod_eq_of_lt (by omega) (by omega)
  have hw : (((s.pc + 2) % 65536).toNat : Int) = s.pc + 2 := by
    rw [hmod]
    exact Int.toNat_of_nonneg (by omega)
  unfold vm_step
  rw [h0, h1, h2, h3]
  simp only [withRes]
  have hstep : operation_exec 17 afld bfld cfld s =
      withRes (stack_push s.stack ((s.pc + 2) % 65536).toNat) fun st =>
      withRes (val_get s.registers afld) fun v =>
      .next { s with stack := st, pc := (v : Int) } := rfl
  rw [hstep]
  have hpush : stack_push s.stack ((s.pc + 2) % 65536).toNat =
      .ok (((s.pc + 2) % 65536).toNat :: s.stack) := by
    unfold stack_push
    rw [if_neg (by omega)]
  rw [hpush]
  simp only [withRes]
  rw [hval]
  simp only [withRes, pc_check]
  rw [if_neg (by omega)]
  refine ⟨_, rfl, rfl, by rw [hmod], ?_⟩
  have hf0 : fetch s.memory ((t : Int)) = .ok 18 := by
    unfold fetch
    rw [if_pos ⟨by omega, by simp only [MEMORY_SIZE]; omega⟩]
    rw [Int.toNat_ofNat, hret]
  have hf1 : fetch s.memory ((t : Int) + 1) = .ok (s.memory (t + 1)) := by
    unfold fetch
    rw [if_pos ⟨by omega, by simp only [MEMORY_SIZE]; omega⟩]
    have e : ((t : Int) + 1).toNat = t + 1 := by omega
    rw [e]
  have hf2 : fetch s.memory ((t : Int) + 2) = .ok (s.memory (t + 2)) := by
    unfold fetch
    rw [if_pos ⟨by omega, by simp only [MEMORY_SIZE]; omega⟩]
    have e : ((t : Int) + 2).toNat = t + 2 := by omega
    rw [e]
  have hf3 : fetch s.memory ((t : Int) + 3) = .ok (s.memory (t + 3)) := by
    unfold fetch
    rw [if_pos ⟨by omega, by simp only [MEMORY_SIZE]; omega⟩]
    have e : ((t : Int) + 3).toNat = t + 3 := by omega
    rw [e]
  dsimp only
  rw [hf0, hf1, hf2, hf3]
  dsimp only
  have hstep2 : operation_exec 18 (s.memory (t + 1)) (s.memory (t + 2))
      (s.memory (t + 3))
      { s with stack := ((s.pc + 2) % 65536).toNat :: s.stack, pc := (t : Int) } =
      .next { s with stack := s.stack, pc := (((s.pc + 2) % 65536).toNat : Int) } :=
    rfl
  rw [hstep2]
  dsimp only
  rw [if_neg (by rw [hw]; omega)]
  exact ⟨_, rfl, hw, rfl, rfl, rfl, rfl⟩

/-- Example state whose program is call 4 with a ret at address 4
(memory words 17, 4, 0, 0, 18), loaded length 5. -/
def st_c7 : VMState :=
  { pc := 0
    registers := fun _ => 0
    memory := fun i =>
      if i = 0 then 17 else if i = 1 then 4 else if i = 4 then 18 else 0
    stack := []
    inputs := []
    output := [] }

/-- Witness for C7 on the concrete call 4 / ret program. -/
theorem C7_call_ret_witness :
    ∃ s₁, vm_step 5 st_c7 = .next s₁ ∧
      s₁.pc = ((4 : Nat) : Int) ∧ s₁.stack = (st_c7.pc + 2).toNat :: st_c7.stack ∧
      ∃ s₂, vm_step 5 s₁ = .next s₂ ∧ s₂.pc = st_c7.pc + 2 ∧
        s₂.stack = st_c7.stack ∧ s₂.registers = st_c7.registers ∧
        s₂.memory = st_c7.memory ∧ s₂.output = st_c7.output :=
  C7_call_ret 5 st_c7 4 0 0 4 rfl rfl rfl rfl rfl (by decide) (by decide)
    (by decide) rfl (by decide)

/-- Example state whose program is rmem r0, 7 then mult r1, r0, r0
(memory words 15, 32768, 7, 10, 32769, 32768, 32768, 65535), loaded
length 8: the data word at address 7 is 65535. -/
def st_c10 : VMState :=
  { pc := 0
    registers := fun _ => 0
    memory := fun i =>
      if i = 0 then 15 else if i = 1 then 32768 else if i = 2 then 7
      else if i = 3 then 10 else if i = 4 then 32769 else if i = 5 then 32768
      else if i = 6 then 32768 else if i = 7 then 65535 else 0
    stack := []
    inputs := []
    output := [] }

/-- State of st_c10 after the rmem step: register 0 holds 65535. -/
def st_c10' : VMState :=
  { st_c10 with registers := fun i => if i = 0 then 65535 else 0, pc := 3 }

/-- C10 counterexample: determinism cannot be asserted across
undefined behaviour.  This loaded program image (rmem r0 from the data
word 65535, then mult r1, r0, r0) reaches, after one defined step, a
step whose int-promoted product 65535 * 65535 overflows INT_MAX: the C
abstract machine guarantees nothing there, so two runs are not
guaranteed identical states or a common outcome from that step on, and
the claim fails for this program image and empty input. -/
theorem C10_reachable_ub :
    vm_step 8 st_c10 = .next st_c10' ∧
    st_c10'.registers 0 = 65535 ∧
    vm_step 8 st_c10' = .ub :=
  ⟨rfl, rfl, rfl⟩

/-- C10 amended: the machine is deterministic on the defined part of
every run: from one start state (one program image and one host-input
sequence), the state after any number of continuing defined steps is
unique, hence the emitted output and the next outcome (halt, fault,
undefined behaviour or continuation) are unique as well; nothing is
asserted past a step with undefined behaviour, where the C abstract
machine leaves the run unconstrained. -/
theorem C10_deterministic (len : Nat) (s : VMState) (n : Nat) (t₁ t₂ : VMState)
    (h₁ : Steps len s n t₁) (h₂ : Steps len s n t₂) :
    t₁ = t₂ ∧ t₁.output = t₂.output ∧ vm_step len t₁ = vm_step len t₂ := by
  suffices hgoal : t₁ = t₂ by
    subst hgoal
    exact ⟨rfl, rfl, rfl⟩
  induction h₁ generalizing t₂ with
  | refl => cases h₂ with | refl => rfl
  | tail hsteps hstep ih =>
      cases h₂ with
      | tail hsteps₂ hstep₂ =>
          have he := ih _ hsteps₂
          rw [← he] at hstep₂
          rw [hstep] at hstep₂
          cases hstep₂
          rfl

/-- Witness for C10 on the states reached from exW after one step. -/
theorem C10_deterministic_witness :
    exW' = exW' ∧ exW'.output = exW'.output ∧ vm_step 2 exW' = vm_step 2 exW' :=
  C10_deterministic 2 exW 1 exW' exW'
    (Steps.tail (Steps.refl exW) rfl) (Steps.tail (Steps.refl exW) rfl)

/-- Witness for C9 at the even-length image [1,2,3,4] and the
odd-length image [1,2,3]. -/
theorem C9_binary_load_amended_witness :
    (binary_load [1, 2, 3, 4] = .ok (loadMem [1, 2, 3, 4], 2) ∧
      loadMem [1, 2, 3, 4] 0 = 1 + 256 * 2) ∧
    (binary_load [1, 2, 3] = .ok (loadMem [1, 2, 3], 1) ∧
      loadMem [1, 2, 3] 1 = 3) := by
  have heven := C9_binary_load_amended [1, 2, 3, 4] (by decide) (by decide)
  have hodd := C9_binary_load_amended [1, 2, 3] (by decide) (by decide)
  refine ⟨⟨heven.1, ?_⟩, ⟨hodd.1, ?_⟩⟩
  · have := heven.2.1 0 (by decide)
    simpa using this
  · have := hodd.2.2 (by decide)
    simpa using this
